import Mathlib

/-!
Verification of the gin-scheduler-json task scheduler (src/main.go).

The Go program keeps an in-memory registry of periodic HTTP tasks
(`Scheduler.tasks : map[string]*Task`), persists a full snapshot of the
registry to `config.json` on every mutating operation, and restores the
registry from that snapshot at startup.  We embed the registry state, the
persistence format and the mutating operations as pure Lean functions.

Modelling decisions:
- the Go map is an association list of tasks keyed by `Task.ID`; map
  insertion overwrites an existing key in place, deletion filters it out;
- wall-clock times (`time.Now()`) are `Nat` parameters passed to the
  operations; the textual RFC3339 formatting is irrelevant to the claims;
- disk I/O is a `writeOk : Bool` oracle: `atomicWriteJSON` either replaces
  the snapshot wholesale (rename succeeds) or leaves the previous snapshot
  untouched (any step fails before the rename) — this is exactly the
  atomicity the Go code obtains from write-temp-then-rename;
- a task's `cancel context.CancelFunc` field is modelled as the Boolean
  `hasCancel` (`true` iff the Go field is non-nil); starting the goroutine
  `runTask` is observationally the presence of the handle;
- `executeOnce` takes the outcome of the HTTP exchange as a parameter and
  returns the updated task together with the ordered list of observable
  events the Go function performs on that path.
-/

namespace GinSched

/-- Go `unicode.IsSpace` restricted to the ASCII whitespace that can occur
in HTTP method and URL strings. -/
def isSpaceChar (c : Char) : Bool :=
  c == ' ' || c == '\t' || c == '\n' || c == '\r' || c == '\x0b' || c == '\x0c'

/-- Go `strings.TrimSpace`: drop leading and trailing whitespace. -/
def goTrim (s : String) : String :=
  String.mk (((s.data.dropWhile isSpaceChar).reverse.dropWhile isSpaceChar).reverse)

/-- Go `strings.ToUpper`: uppercase every character. -/
def goToUpper (s : String) : String :=
  String.mk (s.data.map Char.toUpper)

instance : DecidableEq (Except String String) := fun a b =>
  match a, b with
  | Except.ok x, Except.ok y =>
    if h : x = y then isTrue (by rw [h]) else isFalse (by intro hc; cases hc; exact h rfl)
  | Except.error x, Except.error y =>
    if h : x = y then isTrue (by rw [h]) else isFalse (by intro hc; cases hc; exact h rfl)
  | Except.ok _, Except.error _ => isFalse (by intro hc; cases hc)
  | Except.error _, Except.ok _ => isFalse (by intro hc; cases hc)

/-- Request body of POST /tasks/add (`AddTaskReq` in main.go). -/
structure AddTaskReq where
  IntervalSeconds : Int
  URL : String
  Method : String
  Description : String
deriving DecidableEq, Repr

/-- In-memory task (`Task` in main.go); `hasCancel` models `cancel != nil`,
`startedAt` and `runCount` are kept abstract as naturals. -/
structure Task where
  ID : String
  IntervalSeconds : Int
  URL : String
  Method : String
  Description : String
  paused : Bool
  startedAt : Nat
  runCount : Nat
  hasCancel : Bool
deriving DecidableEq, Repr

/-- One persisted task record (`persistedTask` in main.go); the two
timestamps are modelled as naturals. -/
structure PersistedTask where
  ID : String
  IntervalSeconds : Int
  URL : String
  Method : String
  Description : String
  Enabled : Bool
  CreatedAt : Nat
  UpdatedAt : Nat
deriving DecidableEq, Repr

/-- The on-disk snapshot (`persistedFile` in main.go). -/
structure PersistedFile where
  Version : Int
  Port : Int
  Tasks : List PersistedTask
deriving DecidableEq, Repr

/-- Scheduler state: the in-memory registry plus the current content of
`config.json` (the snapshot the last successful `atomicWriteJSON` left). -/
structure SchedulerState where
  tasks : List Task
  port : Int
  disk : PersistedFile
deriving DecidableEq, Repr

/-- Go map write `s.tasks[id] = t`: overwrite in place if the key exists,
otherwise append. -/
def mapInsert (ts : List Task) (t : Task) : List Task :=
  if ts.any (fun u => u.ID == t.ID) then
    ts.map (fun u => if u.ID == t.ID then t else u)
  else
    ts ++ [t]

/-- Go map delete `delete(s.tasks, id)`. -/
def mapDelete (ts : List Task) (id : String) : List Task :=
  ts.filter (fun u => u.ID != id)

/-- Go map read `t, ok := s.tasks[id]`. -/
def mapLookup (ts : List Task) (id : String) : Option Task :=
  ts.find? (fun u => u.ID == id)

/-- The ids currently present in the registry. -/
def ids (ts : List Task) : List String :=
  ts.map Task.ID

/-- Method normalization used both in AddTask and in loadFromDisk:
`strings.ToUpper(strings.TrimSpace(m))`. -/
def normalizeMethod (m : String) : String :=
  goToUpper (goTrim m)

/-- The persisted record `saveToDiskLocked` builds for one task: `Enabled`
is `!t.paused`, `CreatedAt` is the task's `startedAt` (falling back to the
current time when it is the zero value), `UpdatedAt` is the single `now`
taken once per snapshot. -/
def persistOf (t : Task) (now : Nat) : PersistedTask :=
  { ID := t.ID
    IntervalSeconds := t.IntervalSeconds
    URL := t.URL
    Method := t.Method
    Description := t.Description
    Enabled := !t.paused
    CreatedAt := if t.startedAt = 0 then now else t.startedAt
    UpdatedAt := now }

/-- Snapshot produced by `saveToDiskLocked`: one record per registry task,
sorted by ID (`sort.Slice` with `Tasks[i].ID < Tasks[j].ID`). -/
def saveFile (s : SchedulerState) (now : Nat) : PersistedFile :=
  { Version := 1
    Port := s.port
    Tasks := List.insertionSort (fun a b : PersistedTask => a.ID < b.ID)
      (s.tasks.map (fun t => persistOf t now)) }

/-- ID of a fresh `nextID` result: timestamp, optional random segment, and
the atomically incremented process-wide counter. -/
def nextIDString (ts : String) (rnd : Option (Nat × Nat)) (n : Nat) : String :=
  match rnd with
  | none => ts ++ "-" ++ toString n
  | some (a, b) => ts ++ "-" ++ toString a ++ toString b ++ "-" ++ toString n

/-- AddTask (main.go:201-234).  Validates the normalized method and the
interval lower bound, inserts the new task, writes a snapshot; on write
failure deletes the entry again and returns the error, on success binds a
cancellation handle and starts the loop. -/
def AddTask (s : SchedulerState) (req : AddTaskReq) (id : String) (now : Nat)
    (writeOk : Bool) : Except String String × SchedulerState :=
  let method := normalizeMethod req.Method
  if method = "GET" ∨ method = "POST" then
    if req.IntervalSeconds < 1 then
      (Except.error "interval_seconds must be >= 1", s)
    else
      let t : Task :=
        { ID := id
          IntervalSeconds := req.IntervalSeconds
          URL := req.URL
          Method := method
          Description := goTrim req.Description
          paused := false
          startedAt := now
          runCount := 0
          hasCancel := false }
      let inserted := mapInsert s.tasks t
      if writeOk then
        let withLoop := inserted.map
          (fun u => if u.ID == id then { u with hasCancel := true } else u)
        (Except.ok id,
         { s with tasks := withLoop, disk := saveFile { s with tasks := inserted } now })
      else
        (Except.error "snapshot write failed", { s with tasks := mapDelete inserted id })
  else
    (Except.error "method must be GET or POST", s)

/-- RemoveTask (main.go:236-250).  If absent returns false; otherwise
cancels any active loop, deletes the entry, writes a snapshot ignoring any
write error, and returns true. -/
def RemoveTask (s : SchedulerState) (id : String) (now : Nat) (writeOk : Bool) :
    Bool × SchedulerState :=
  match mapLookup s.tasks id with
  | none => (false, s)
  | some _ =>
    let s1 := { s with tasks := mapDelete s.tasks id }
    (true, if writeOk then { s1 with disk := saveFile s1 now } else s1)

/-- PauseTask (main.go:252-269).  Absent id returns false; an already
paused task returns true with no further effect; otherwise the loop is
cancelled, `paused` is set, and a snapshot is written ignoring any write
error. -/
def PauseTask (s : SchedulerState) (id : String) (now : Nat) (writeOk : Bool) :
    Bool × SchedulerState :=
  match mapLookup s.tasks id with
  | none => (false, s)
  | some t =>
    if t.paused then
      (true, s)
    else
      let ts := s.tasks.map
        (fun u => if u.ID == id then { u with paused := true, hasCancel := false } else u)
      let s1 := { s with tasks := ts }
      (true, if writeOk then { s1 with disk := saveFile s1 now } else s1)

/-- Validity filter applied to each persisted entry during restore
(main.go:165-172): normalized method is GET or POST, interval at least 1,
URL non-blank. -/
def validRestoreEntry (pt : PersistedTask) : Bool :=
  (normalizeMethod pt.Method == "GET" || normalizeMethod pt.Method == "POST")
    && decide (1 ≤ pt.IntervalSeconds)
    && !(goTrim pt.URL == "")

/-- The task `loadFromDisk` rebuilds from a valid persisted entry
(main.go:174-192): method stored normalized, `paused = !Enabled`, a fresh
cancellation handle bound exactly when the entry is enabled. -/
def restoredTask (pt : PersistedTask) (now : Nat) : Task :=
  { ID := pt.ID
    IntervalSeconds := pt.IntervalSeconds
    URL := pt.URL
    Method := normalizeMethod pt.Method
    Description := pt.Description
    paused := !pt.Enabled
    startedAt := now
    runCount := 0
    hasCancel := pt.Enabled }

/-- The restore loop of `loadFromDisk` (main.go:162-196): each entry is
validated individually; valid entries are inserted into the registry,
invalid ones are skipped with a diagnostic and the loop continues. -/
def restoreTasks (acc : List Task) (pts : List PersistedTask) (now : Nat) : List Task :=
  match pts with
  | [] => acc
  | pt :: rest =>
    if validRestoreEntry pt then
      restoreTasks (mapInsert acc (restoredTask pt now)) rest now
    else
      restoreTasks acc rest now

/-- Outcome of the HTTP exchange inside `executeOnce`, supplied as an
oracle: request construction may fail, the transport may fail, or a
response arrives (with or without a body). -/
inductive HTTPOutcome where
  | buildError
  | transportError
  | success (status : Nat) (hasBody : Bool)
deriving DecidableEq, Repr

/-- Observable events of one `executeOnce` call, in program order. -/
inductive ExecEvent where
  | buildErrorLogged
  | httpCall
  | errorLogged
  | bodyDiscarded
  | bodyClosed
  | counterIncremented
  | successLogged
deriving DecidableEq, Repr

/-- executeOnce (main.go:291-309): on build error, log and return; on
transport error, log and return; on success, drain and close the body (if
present), increment `runCount`, log status and counter. -/
def executeOnce (t : Task) (o : HTTPOutcome) : Task × List ExecEvent :=
  match o with
  | HTTPOutcome.buildError => (t, [ExecEvent.buildErrorLogged])
  | HTTPOutcome.transportError => (t, [ExecEvent.httpCall, ExecEvent.errorLogged])
  | HTTPOutcome.success _ hasBody =>
    ({ t with runCount := t.runCount + 1 },
     [ExecEvent.httpCall]
       ++ (if hasBody then [ExecEvent.bodyDiscarded, ExecEvent.bodyClosed] else [])
       ++ [ExecEvent.counterIncremented, ExecEvent.successLogged])

/-- Modelled from the spec: the JSON binding layer of POST /tasks/add.  The
validator implementation behind the struct tags
(`binding:"required,min=1,max=86400"` on the interval,
`binding:"required,url"` on the URL, `binding:"required"` on the method,
`binding:"required,min=1,max=200"` on the description) lives in the gin /
validator dependency, not in this repository; the spec describes it as
rejecting "bad method, interval out of [1,86400], empty/invalid URL or
description ... before any state change".  We model the interval and
length bounds exactly and the URL check by the one consequence the claims
rely on: an accepted URL is non-blank. -/
def bindingValid (req : AddTaskReq) : Bool :=
  decide (1 ≤ req.IntervalSeconds)
    && decide (req.IntervalSeconds ≤ 86400)
    && !(goTrim req.URL == "")
    && !(req.Method == "")
    && decide (1 ≤ req.Description.length)
    && decide (req.Description.length ≤ 200)

/-- The POST /tasks/add endpoint (main.go:380-392): `ShouldBindJSON`
rejects the request before `AddTask` is ever invoked; otherwise the result
of `AddTask` is returned. -/
def addEndpoint (s : SchedulerState) (req : AddTaskReq) (id : String) (now : Nat)
    (writeOk : Bool) : Except String String × SchedulerState :=
  if bindingValid req then AddTask s req id now writeOk
  else (Except.error "binding rejected", s)

/-- A mutating registry operation together with its oracle inputs
(fresh id, wall-clock time, disk-write success). -/
inductive Op where
  | add (req : AddTaskReq) (id : String) (now : Nat) (writeOk : Bool)
  | pause (id : String) (now : Nat) (writeOk : Bool)
  | remove (id : String) (now : Nat) (writeOk : Bool)
deriving DecidableEq, Repr

/-- Effect of one operation on the scheduler state (the endpoint wrappers
around AddTask/PauseTask/RemoveTask, discarding the response). -/
def applyOp (s : SchedulerState) (op : Op) : SchedulerState :=
  match op with
  | Op.add req id now wk => (addEndpoint s req id now wk).2
  | Op.pause id now wk => (PauseTask s id now wk).2
  | Op.remove id now wk => (RemoveTask s id now wk).2

/-- A sequence of operations applied in order. -/
def applyOps (s : SchedulerState) : List Op → SchedulerState
  | [] => s
  | op :: ops => applyOps (applyOp s op) ops

/-- The scheduler state right after `NewScheduler` on a fresh directory:
empty registry, default port, the default snapshot `loadFromDisk` writes
when the file does not exist. -/
def initialState : SchedulerState :=
  { tasks := []
    port := 9000
    disk := { Version := 1, Port := 9000, Tasks := [] } }

/-- A concrete running registry entry used in closed-form checks. -/
def sampleTaskRunning : Task :=
  { ID := "a", IntervalSeconds := 5, URL := "http://example.com/ping", Method := "GET",
    Description := "d", paused := false, startedAt := 1, runCount := 0, hasCancel := true }

/-- A concrete paused registry entry used in closed-form checks. -/
def sampleTaskPaused : Task :=
  { ID := "b", IntervalSeconds := 60, URL := "http://example.com/health", Method := "POST",
    Description := "e", paused := true, startedAt := 2, runCount := 7, hasCancel := false }

/-- A concrete two-task scheduler state used in closed-form checks. -/
def sampleState : SchedulerState :=
  { tasks := [sampleTaskRunning, sampleTaskPaused]
    port := 9000
    disk := { Version := 1, Port := 9000, Tasks := [] } }

/-- A persisted entry that restore must skip (method DELETE). -/
def sampleBadEntry : PersistedTask :=
  { ID := "x", IntervalSeconds := 5, URL := "http://example.com/a", Method := "DELETE",
    Description := "d", Enabled := true, CreatedAt := 1, UpdatedAt := 2 }

/-- A persisted entry that restore must accept (method normalizes to POST). -/
def sampleGoodEntry : PersistedTask :=
  { ID := "y", IntervalSeconds := 9, URL := "http://example.com/b", Method := " post ",
    Description := "e", Enabled := false, CreatedAt := 3, UpdatedAt := 4 }

/-- A concrete operation sequence: two adds and one pause. -/
def sampleOps : List Op :=
  [Op.add { IntervalSeconds := 5, URL := "http://example.com/ping", Method := "get", Description := "d" } "a" 1 true,
   Op.add { IntervalSeconds := 60, URL := "http://example.com/health", Method := " post ", Description := "e" } "b" 2 true,
   Op.pause "a" 3 true]

/-- The (id, intervalSeconds, url, method, description, enabled) view of an
in-memory task, with enabled = not paused. -/
def taskTuple (t : Task) : String × Int × String × String × String × Bool :=
  (t.ID, t.IntervalSeconds, t.URL, t.Method, t.Description, !t.paused)

/-- The same view of a persisted record. -/
def persistedTuple (pt : PersistedTask) : String × Int × String × String × String × Bool :=
  (pt.ID, pt.IntervalSeconds, pt.URL, pt.Method, pt.Description, pt.Enabled)

/-- Read-only task view served by GET /tasks and GET /tasks/:id
(main.go:329-336, 365-376). -/
structure TaskView where
  ID : String
  IntervalSeconds : Int
  URL : String
  Method : String
  Description : String
  Status : String
deriving DecidableEq, Repr

/-- The view of a single task: status is "paused" iff the task is paused. -/
def viewOf (t : Task) : TaskView :=
  { ID := t.ID
    IntervalSeconds := t.IntervalSeconds
    URL := t.URL
    Method := t.Method
    Description := t.Description
    Status := if t.paused then "paused" else "running" }

/-- GET /tasks/:id. -/
def getTask (s : SchedulerState) (id : String) : Option TaskView :=
  (mapLookup s.tasks id).map viewOf

/-- GET /tasks: all views, sorted by id. -/
def listTasks (s : SchedulerState) : List TaskView :=
  List.insertionSort (fun a b : TaskView => a.ID < b.ID) (s.tasks.map viewOf)

/-- Invariant relating a task's pause flag and its cancellation handle:
the handle is present exactly when the task is not paused. -/
def CancelInv (ts : List Task) : Prop :=
  ∀ t ∈ ts, t.hasCancel = !t.paused

instance (ts : List Task) : Decidable (CancelInv ts) :=
  List.decidableBAll _ ts

/-- Invariant: every registry task carries an exactly normalized method. -/
def MethodInv (ts : List Task) : Prop :=
  ∀ t ∈ ts, t.Method = "GET" ∨ t.Method = "POST"

instance (ts : List Task) : Decidable (MethodInv ts) :=
  List.decidableBAll _ ts

/-- Tasks that restore accepts unchanged: normalized method, interval at
least one, non-blank URL.  Every task a successful endpoint add produces
satisfies this. -/
def GoodTask (t : Task) : Prop :=
  (t.Method = "GET" ∨ t.Method = "POST") ∧ 1 ≤ t.IntervalSeconds ∧ goTrim t.URL ≠ ""

instance (t : Task) : Decidable (GoodTask t) := by
  unfold GoodTask; infer_instance

/-- Registry states whose snapshot restores faithfully: distinct ids and
only good tasks. -/
def GoodState (ts : List Task) : Prop :=
  (ids ts).Nodup ∧ ∀ t ∈ ts, GoodTask t

end GinSched

namespace GinSched

theorem ids_eq_map (ts : List Task) : ids ts = ts.map Task.ID := rfl

theorem any_id_eq_false {ts : List Task} {id : String} (h : id ∉ ids ts) :
    ts.any (fun u => u.ID == id) = false := by
  rw [List.any_eq_false]
  intro u hu
  simp only [beq_iff_eq]
  intro hEq
  exact h (hEq ▸ List.mem_map_of_mem Task.ID hu)

theorem mapInsert_fresh {ts : List Task} {t : Task} (h : t.ID ∉ ids ts) :
    mapInsert ts t = ts ++ [t] := by
  unfold mapInsert
  rw [any_id_eq_false h]
  rfl

theorem filter_ne_id_eq_self {ts : List Task} {id : String} (h : id ∉ ids ts) :
    ts.filter (fun u => u.ID != id) = ts := by
  rw [List.filter_eq_self]
  intro u hu
  simp only [bne_iff_ne, ne_eq]
  intro hEq
  exact h (hEq ▸ List.mem_map_of_mem Task.ID hu)

theorem mapDelete_mapInsert_fresh {ts : List Task} {t : Task} (h : t.ID ∉ ids ts) :
    mapDelete (mapInsert ts t) t.ID = ts := by
  rw [mapInsert_fresh h]
  unfold mapDelete
  rw [List.filter_append, filter_ne_id_eq_self h]
  simp

theorem mem_mapInsert {ts : List Task} {t u : Task} (h : u ∈ mapInsert ts t) :
    u = t ∨ (u ∈ ts ∧ u.ID ≠ t.ID) := by
  unfold mapInsert at h
  by_cases hany : ts.any (fun v => v.ID == t.ID)
  · rw [if_pos hany] at h
    obtain ⟨v, hv, hvu⟩ := List.mem_map.mp h
    by_cases hid : v.ID == t.ID
    · left
      rw [if_pos hid] at hvu
      exact hvu.symm
    · right
      rw [if_neg hid] at hvu
      subst hvu
      exact ⟨hv, by simpa using hid⟩
  · rw [if_neg hany] at h
    rcases List.mem_append.mp h with hmem | hmem
    · right
      refine ⟨hmem, ?_⟩
      simp only [List.any_eq_true, beq_iff_eq, not_exists, not_and] at hany
      exact hany u hmem
    · left
      simpa using hmem

theorem mem_mapDelete {ts : List Task} {id : String} {u : Task}
    (h : u ∈ mapDelete ts id) : u ∈ ts ∧ u.ID ≠ id := by
  unfold mapDelete at h
  have := List.mem_filter.mp h
  exact ⟨this.1, by simpa using this.2⟩

theorem mapLookup_eq_none_of_not_mem {ts : List Task} {id : String} (h : id ∉ ids ts) :
    mapLookup ts id = none := by
  unfold mapLookup
  rw [List.find?_eq_none]
  intro u hu
  simp only [beq_iff_eq]
  intro hEq
  exact h (hEq ▸ List.mem_map_of_mem Task.ID hu)

theorem mapLookup_mapDelete_self (ts : List Task) (id : String) :
    mapLookup (mapDelete ts id) id = none := by
  unfold mapLookup mapDelete
  rw [List.find?_eq_none]
  intro u hu
  have := (List.mem_filter.mp hu).2
  simpa using this

theorem ids_map_of_id_fixed {ts : List Task} {f : Task → Task}
    (hf : ∀ u ∈ ts, (f u).ID = u.ID) : ids (ts.map f) = ids ts := by
  unfold ids
  rw [List.map_map]
  exact List.map_congr_left (fun u hu => hf u hu)

theorem ids_mapInsert_nodup {ts : List Task} {t : Task} (h : (ids ts).Nodup) :
    (ids (mapInsert ts t)).Nodup := by
  unfold mapInsert
  by_cases hany : ts.any (fun v => v.ID == t.ID)
  · rw [if_pos hany, ids_map_of_id_fixed]
    · exact h
    · intro u _
      by_cases hid : u.ID == t.ID
      · rw [if_pos hid]
        exact (beq_iff_eq.mp hid).symm
      · rw [if_neg hid]
  · rw [if_neg hany]
    unfold ids
    rw [List.map_append]
    simp only [List.nodup_append, List.map_cons, List.map_nil]
    refine ⟨h, List.nodup_singleton _, ?_⟩
    intro x hx
    simp only [List.mem_singleton]
    intro hxt
    obtain ⟨u, hu, hux⟩ := List.mem_map.mp hx
    simp only [List.any_eq_true, beq_iff_eq, not_exists, not_and] at hany
    exact hany u hu (by rw [hux, hxt])

theorem ids_mapDelete_nodup {ts : List Task} {id : String} (h : (ids ts).Nodup) :
    (ids (mapDelete ts id)).Nodup := by
  unfold mapDelete ids
  exact ((List.filter_sublist ts).map Task.ID).nodup h

end GinSched

namespace GinSched

theorem cancelInv_addTask (s : SchedulerState) (req : AddTaskReq) (id : String)
    (now : Nat) (wk : Bool) (h : CancelInv s.tasks) :
    CancelInv (AddTask s req id now wk).2.tasks := by
  simp only [AddTask]
  split
  · split
    · exact h
    · split
      · intro u hu
        obtain ⟨v, hv, hvu⟩ := List.mem_map.mp hu
        rcases mem_mapInsert hv with rfl | ⟨hmem, hne⟩
        · simp only [beq_self_eq_true, if_pos] at hvu
          subst hvu
          rfl
        · rw [if_neg (by simpa using hne)] at hvu
          subst hvu
          exact h v hmem
      · intro u hu
        have hm := mem_mapDelete hu
        rcases mem_mapInsert hm.1 with rfl | ⟨hmem, _⟩
        · exact absurd rfl hm.2
        · exact h u hmem
  · exact h

theorem cancelInv_removeTask (s : SchedulerState) (id : String) (now : Nat) (wk : Bool)
    (h : CancelInv s.tasks) : CancelInv (RemoveTask s id now wk).2.tasks := by
  unfold RemoveTask
  cases hfind : mapLookup s.tasks id with
  | none => exact h
  | some t =>
    simp only
    split <;>
      exact fun u hu => h u (mem_mapDelete hu).1

theorem cancelInv_pauseTask (s : SchedulerState) (id : String) (now : Nat) (wk : Bool)
    (h : CancelInv s.tasks) : CancelInv (PauseTask s id now wk).2.tasks := by
  unfold PauseTask
  cases hfind : mapLookup s.tasks id with
  | none => exact h
  | some t =>
    simp only
    split
    · exact h
    · have hmap : CancelInv (s.tasks.map
          (fun u => if u.ID == id then { u with paused := true, hasCancel := false } else u)) := by
        intro u hu
        obtain ⟨v, hv, hvu⟩ := List.mem_map.mp hu
        by_cases hid : v.ID == id
        · rw [if_pos hid] at hvu
          subst hvu
          rfl
        · rw [if_neg hid] at hvu
          subst hvu
          exact h v hv
      split <;> exact hmap

theorem cancelInv_addEndpoint (s : SchedulerState) (req : AddTaskReq) (id : String)
    (now : Nat) (wk : Bool) (h : CancelInv s.tasks) :
    CancelInv (addEndpoint s req id now wk).2.tasks := by
  unfold addEndpoint
  split
  · exact cancelInv_addTask s req id now wk h
  · exact h

theorem cancelInv_applyOp (s : SchedulerState) (op : Op) (h : CancelInv s.tasks) :
    CancelInv (applyOp s op).tasks := by
  cases op with
  | add req id now wk => exact cancelInv_addEndpoint s req id now wk h
  | pause id now wk => exact cancelInv_pauseTask s id now wk h
  | remove id now wk => exact cancelInv_removeTask s id now wk h

theorem cancelInv_applyOps (s : SchedulerState) (ops : List Op) (h : CancelInv s.tasks) :
    CancelInv (applyOps s ops).tasks := by
  induction ops generalizing s with
  | nil => exact h
  | cons op rest ih => exact ih (applyOp s op) (cancelInv_applyOp s op h)

theorem methodInv_addTask (s : SchedulerState) (req : AddTaskReq) (id : String)
    (now : Nat) (wk : Bool) (h : MethodInv s.tasks) :
    MethodInv (AddTask s req id now wk).2.tasks := by
  simp only [AddTask]
  split
  · rename_i hmethod
    split
    · exact h
    · split
      · intro u hu
        obtain ⟨v, hv, hvu⟩ := List.mem_map.mp hu
        rcases mem_mapInsert hv with rfl | ⟨hmem, hne⟩
        · simp only [beq_self_eq_true, if_pos] at hvu
          subst hvu
          exact hmethod
        · rw [if_neg (by simpa using hne)] at hvu
          subst hvu
          exact h v hmem
      · intro u hu
        have hm := mem_mapDelete hu
        rcases mem_mapInsert hm.1 with rfl | ⟨hmem, _⟩
        · exact absurd rfl hm.2
        · exact h u hmem
  · exact h

theorem methodInv_removeTask (s : SchedulerState) (id : String) (now : Nat) (wk : Bool)
    (h : MethodInv s.tasks) : MethodInv (RemoveTask s id now wk).2.tasks := by
  unfold RemoveTask
  cases hfind : mapLookup s.tasks id with
  | none => exact h
  | some t =>
    simp only
    split <;>
      exact fun u hu => h u (mem_mapDelete hu).1

theorem methodInv_pauseTask (s : SchedulerState) (id : String) (now : Nat) (wk : Bool)
    (h : MethodInv s.tasks) : MethodInv (PauseTask s id now wk).2.tasks := by
  unfold PauseTask
  cases hfind : mapLookup s.tasks id with
  | none => exact h
  | some t =>
    simp only
    split
    · exact h
    · have hmap : MethodInv (s.tasks.map
          (fun u => if u.ID == id then { u with paused := true, hasCancel := false } else u)) := by
        intro u hu
        obtain ⟨v, hv, hvu⟩ := List.mem_map.mp hu
        by_cases hid : v.ID == id
        · rw [if_pos hid] at hvu
          subst hvu
          exact h v hv
        · rw [if_neg hid] at hvu
          subst hvu
          exact h v hv
      split <;> exact hmap

theorem methodInv_addEndpoint (s : SchedulerState) (req : AddTaskReq) (id : String)
    (now : Nat) (wk : Bool) (h : MethodInv s.tasks) :
    MethodInv (addEndpoint s req id now wk).2.tasks := by
  unfold addEndpoint
  split
  · exact methodInv_addTask s req id now wk h
  · exact h

theorem methodInv_applyOp (s : SchedulerState) (op : Op) (h : MethodInv s.tasks) :
    MethodInv (applyOp s op).tasks := by
  cases op with
  | add req id now wk => exact methodInv_addEndpoint s req id now wk h
  | pause id now wk => exact methodInv_pauseTask s id now wk h
  | remove id now wk => exact methodInv_removeTask s id now wk h

theorem methodInv_applyOps (s : SchedulerState) (ops : List Op) (h : MethodInv s.tasks) :
    MethodInv (applyOps s ops).tasks := by
  induction ops generalizing s with
  | nil => exact h
  | cons op rest ih => exact ih (applyOp s op) (methodInv_applyOp s op h)

theorem methodInv_restoredTask (pt : PersistedTask) (now : Nat)
    (h : validRestoreEntry pt = true) :
    (restoredTask pt now).Method = "GET" ∨ (restoredTask pt now).Method = "POST" := by
  unfold validRestoreEntry at h
  simp only [Bool.and_eq_true, Bool.or_eq_true, beq_iff_eq] at h
  exact h.1.1

theorem methodInv_restoreTasks (acc : List Task) (pts : List PersistedTask) (now : Nat)
    (h : MethodInv acc) : MethodInv (restoreTasks acc pts now) := by
  induction pts generalizing acc with
  | nil => exact h
  | cons pt rest ih =>
    unfold restoreTasks
    split
    · rename_i hvalid
      refine ih _ (fun u hu => ?_)
      rcases mem_mapInsert hu with rfl | ⟨hmem, _⟩
      · exact methodInv_restoredTask pt now hvalid
      · exact h u hmem
    · exact ih _ h

theorem goodTask_update_hasCancel (v : Task) (b : Bool) (h : GoodTask v) :
    GoodTask { v with hasCancel := b } := h

theorem goodTask_update_paused (v : Task) (b c : Bool) (h : GoodTask v) :
    GoodTask { v with paused := b, hasCancel := c } := h

theorem goodState_addTask (s : SchedulerState) (req : AddTaskReq) (id : String)
    (now : Nat) (wk : Bool) (hurl : goTrim req.URL ≠ "") (h : GoodState s.tasks) :
    GoodState (AddTask s req id now wk).2.tasks := by
  simp only [AddTask]
  split
  · rename_i hmethod
    split
    · exact h
    · rename_i hival
      split
      · constructor
        · rw [ids_map_of_id_fixed]
          · exact ids_mapInsert_nodup h.1
          · intro u _
            by_cases hid : u.ID == id
            · rw [if_pos hid]
            · rw [if_neg hid]
        · intro u hu
          obtain ⟨v, hv, hvu⟩ := List.mem_map.mp hu
          rcases mem_mapInsert hv with rfl | ⟨hmem, hne⟩
          · simp only [beq_self_eq_true, if_pos] at hvu
            subst hvu
            exact ⟨hmethod, Int.not_lt.mp hival, hurl⟩
          · rw [if_neg (by simpa using hne)] at hvu
            subst hvu
            exact h.2 v hmem
      · constructor
        · exact ids_mapDelete_nodup (ids_mapInsert_nodup h.1)
        · intro u hu
          have hm := mem_mapDelete hu
          rcases mem_mapInsert hm.1 with rfl | ⟨hmem, _⟩
          · exact absurd rfl hm.2
          · exact h.2 u hmem
  · exact h

theorem goodState_removeTask (s : SchedulerState) (id : String) (now : Nat) (wk : Bool)
    (h : GoodState s.tasks) : GoodState (RemoveTask s id now wk).2.tasks := by
  unfold RemoveTask
  cases hfind : mapLookup s.tasks id with
  | none => exact h
  | some t =>
    simp only
    split <;>
      exact ⟨ids_mapDelete_nodup h.1, fun u hu => h.2 u (mem_mapDelete hu).1⟩

theorem goodState_pauseTask (s : SchedulerState) (id : String) (now : Nat) (wk : Bool)
    (h : GoodState s.tasks) : GoodState (PauseTask s id now wk).2.tasks := by
  unfold PauseTask
  cases hfind : mapLookup s.tasks id with
  | none => exact h
  | some t =>
    simp only
    split
    · exact h
    · have hmap : GoodState (s.tasks.map
          (fun u => if u.ID == id then { u with paused := true, hasCancel := false } else u)) := by
        constructor
        · rw [ids_map_of_id_fixed]
          · exact h.1
          · intro u _
            by_cases hid : u.ID == id
            · rw [if_pos hid]
            · rw [if_neg hid]
        · intro u hu
          obtain ⟨v, hv, hvu⟩ := List.mem_map.mp hu
          by_cases hid : v.ID == id
          · rw [if_pos hid] at hvu
            subst hvu
            exact goodTask_update_paused v true false (h.2 v hv)
          · rw [if_neg hid] at hvu
            subst hvu
            exact h.2 v hv
      split <;> exact hmap

theorem goodState_addEndpoint (s : SchedulerState) (req : AddTaskReq) (id : String)
    (now : Nat) (wk : Bool) (h : GoodState s.tasks) :
    GoodState (addEndpoint s req id now wk).2.tasks := by
  unfold addEndpoint
  split
  · rename_i hb
    unfold bindingValid at hb
    simp only [Bool.and_eq_true, Bool.not_eq_true', beq_eq_false_iff_ne, ne_eq,
      decide_eq_true_eq] at hb
    obtain ⟨⟨⟨⟨⟨h1, h2⟩, hurl⟩, h3⟩, h4⟩, h5⟩ := hb
    exact goodState_addTask s req id now wk hurl h
  · exact h

theorem goodState_applyOp (s : SchedulerState) (op : Op) (h : GoodState s.tasks) :
    GoodState (applyOp s op).tasks := by
  cases op with
  | add req id now wk => exact goodState_addEndpoint s req id now wk h
  | pause id now wk => exact goodState_pauseTask s id now wk h
  | remove id now wk => exact goodState_removeTask s id now wk h

theorem goodState_applyOps (s : SchedulerState) (ops : List Op) (h : GoodState s.tasks) :
    GoodState (applyOps s ops).tasks := by
  induction ops generalizing s with
  | nil => exact h
  | cons op rest ih => exact ih (applyOp s op) (goodState_applyOp s op h)

theorem goodState_initial : GoodState initialState.tasks :=
  ⟨List.nodup_nil, fun _ hu => absurd hu (List.not_mem_nil _)⟩

theorem cancelInv_restoreTasks (acc : List Task) (pts : List PersistedTask) (now : Nat)
    (h : CancelInv acc) : CancelInv (restoreTasks acc pts now) := by
  induction pts generalizing acc with
  | nil => exact h
  | cons pt rest ih =>
    unfold restoreTasks
    split
    · refine ih _ (fun u hu => ?_)
      rcases mem_mapInsert hu with rfl | ⟨hmem, _⟩
      · simp only [restoredTask]
        cases pt.Enabled <;> rfl
      · exact h u hmem
    · exact ih _ h

end GinSched

namespace GinSched

theorem normalizeMethod_GET : normalizeMethod "GET" = "GET" := by decide

theorem normalizeMethod_POST : normalizeMethod "POST" = "POST" := by decide

theorem restoreTasks_skip (acc : List Task) (xs ys : List PersistedTask)
    (bad : PersistedTask) (now : Nat) (h : validRestoreEntry bad = false) :
    restoreTasks acc (xs ++ bad :: ys) now = restoreTasks acc (xs ++ ys) now := by
  induction xs generalizing acc with
  | nil =>
    simp only [List.nil_append, restoreTasks]
    rw [if_neg (by simp [h])]
  | cons x xs ih =>
    simp only [List.cons_append, restoreTasks]
    split
    · exact ih _
    · exact ih _

theorem restoreTasks_eq_filter_map (pts : List PersistedTask) (acc : List Task) (now : Nat)
    (hnd : (pts.map PersistedTask.ID).Nodup)
    (hfresh : ∀ pt ∈ pts, pt.ID ∉ ids acc) :
    restoreTasks acc pts now
      = acc ++ (pts.filter validRestoreEntry).map (fun pt => restoredTask pt now) := by
  induction pts generalizing acc with
  | nil => simp [restoreTasks]
  | cons pt rest ih =>
    have hnd2 : (∀ x ∈ rest, ¬x.ID = pt.ID) ∧ (rest.map PersistedTask.ID).Nodup := by
      simpa using hnd
    simp only [restoreTasks]
    by_cases hv : validRestoreEntry pt
    · rw [if_pos hv]
      have hfreshpt : (restoredTask pt now).ID ∉ ids acc :=
        hfresh pt (List.mem_cons_self pt rest)
      rw [mapInsert_fresh hfreshpt]
      have hrest : ∀ q ∈ rest, q.ID ∉ ids (acc ++ [restoredTask pt now]) := by
        intro q hq
        unfold ids
        rw [List.map_append]
        simp only [List.mem_append, List.map_cons, List.map_nil, List.mem_singleton]
        rintro (hin | hin)
        · exact hfresh q (List.mem_cons_of_mem pt hq) hin
        · exact hnd2.1 q hq hin
      rw [ih _ hnd2.2 hrest, List.filter_cons_of_pos hv, List.map_cons]
      simp [List.append_assoc]
    · rw [if_neg hv,
        ih _ hnd2.2 (fun q hq => hfresh q (List.mem_cons_of_mem pt hq)),
        List.filter_cons_of_neg (by simpa using hv)]

theorem validRestoreEntry_persistOf (t : Task) (now : Nat) (h : GoodTask t) :
    validRestoreEntry (persistOf t now) = true := by
  obtain ⟨hm, hi, hu⟩ := h
  unfold validRestoreEntry persistOf
  simp only [Bool.and_eq_true, Bool.or_eq_true, beq_iff_eq, decide_eq_true_eq,
    Bool.not_eq_true', beq_eq_false_iff_ne, ne_eq]
  refine ⟨⟨?_, hi⟩, hu⟩
  rcases hm with hm | hm
  · rw [hm]
    exact Or.inl normalizeMethod_GET
  · rw [hm]
    exact Or.inr normalizeMethod_POST

theorem taskTuple_restored_persist (t : Task) (now now2 : Nat) (h : GoodTask t) :
    taskTuple (restoredTask (persistOf t now) now2) = taskTuple t := by
  obtain ⟨hm, _, _⟩ := h
  unfold taskTuple restoredTask persistOf
  simp only [Bool.not_not]
  rcases hm with hm | hm <;>
    rw [hm] <;> simp [normalizeMethod_GET, normalizeMethod_POST]

theorem roundtrip_of_goodState (s : SchedulerState) (now now2 : Nat)
    (pts : List PersistedTask) (h : GoodState s.tasks)
    (hperm : List.Perm pts (saveFile s now).Tasks) :
    List.Perm ((restoreTasks [] pts now2).map taskTuple) (s.tasks.map taskTuple) := by
  have hperm2 : List.Perm pts (s.tasks.map (fun t => persistOf t now)) :=
    hperm.trans (List.perm_insertionSort _ _)
  have hids : (s.tasks.map (fun t => persistOf t now)).map PersistedTask.ID = ids s.tasks := by
    rw [List.map_map]
    rfl
  have hnd : (pts.map PersistedTask.ID).Nodup :=
    (hperm2.map PersistedTask.ID).nodup_iff.mpr (hids ▸ h.1)
  have hval : ∀ pt ∈ pts, validRestoreEntry pt = true := by
    intro pt hmem
    obtain ⟨t, ht, rfl⟩ := List.mem_map.mp (hperm2.mem_iff.mp hmem)
    exact validRestoreEntry_persistOf t now (h.2 t ht)
  rw [restoreTasks_eq_filter_map pts [] now2 hnd (by intro pt _; simp [ids]),
    List.nil_append, List.filter_eq_self.mpr hval, List.map_map]
  have hmapped :
      List.Perm (pts.map (taskTuple ∘ fun pt => restoredTask pt now2))
        ((s.tasks.map (fun t => persistOf t now)).map
          (taskTuple ∘ fun pt => restoredTask pt now2)) :=
    hperm2.map _
  refine hmapped.trans ?_
  rw [List.map_map]
  have heq :
      List.map ((taskTuple ∘ fun pt => restoredTask pt now2) ∘ fun t => persistOf t now) s.tasks
        = List.map taskTuple s.tasks :=
    List.map_congr_left (fun t ht => taskTuple_restored_persist t now now2 (h.2 t ht))
  exact heq ▸ List.Perm.refl _

end GinSched

namespace GinSched

theorem pauseTask_none (s : SchedulerState) (id : String) (n : Nat) (w : Bool)
    (h : mapLookup s.tasks id = none) : PauseTask s id n w = (false, s) := by
  unfold PauseTask
  rw [h]

theorem pauseTask_of_paused (s : SchedulerState) (id : String) (n : Nat) (w : Bool)
    (t : Task) (h : mapLookup s.tasks id = some t) (hp : t.paused = true) :
    PauseTask s id n w = (true, s) := by
  unfold PauseTask
  rw [h]
  simp only [hp, if_true]

theorem pauseTask_tasks_of_not_paused (s : SchedulerState) (id : String) (n : Nat)
    (w : Bool) (t : Task) (h : mapLookup s.tasks id = some t) (hp : t.paused = false) :
    (PauseTask s id n w).2.tasks = s.tasks.map
      (fun u => if u.ID == id then { u with paused := true, hasCancel := false } else u) := by
  unfold PauseTask
  rw [h]
  simp only [hp, Bool.false_eq_true, if_false]
  split <;> rfl

theorem mapLookup_map_cond (ts : List Task) (id : String) (g : Task → Task)
    (hg : ∀ u, (g u).ID = u.ID) :
    mapLookup (ts.map (fun u => if u.ID == id then g u else u)) id
      = (mapLookup ts id).map g := by
  induction ts with
  | nil => rfl
  | cons u rest ih =>
    simp only [List.map_cons, mapLookup]
    by_cases hid : (u.ID == id) = true
    · have hgid : ((g u).ID == id) = true := by
        rw [beq_iff_eq, hg u]
        exact beq_iff_eq.mp hid
      rw [if_pos hid]
      simp only [List.find?_cons, hgid, hid]
      rfl
    · rw [if_neg hid]
      have hid2 : (u.ID == id) = false := by
        simpa using hid
      simp only [List.find?_cons, hid2]
      simpa [mapLookup] using ih

theorem pauseTask_pause_pause (s : SchedulerState) (id : String) (n1 n2 : Nat)
    (w1 w2 : Bool) :
    (PauseTask (PauseTask s id n1 w1).2 id n2 w2).2 = (PauseTask s id n1 w1).2 := by
  cases hfind : mapLookup s.tasks id with
  | none =>
    rw [pauseTask_none s id n1 w1 hfind]
    rw [pauseTask_none s id n2 w2 hfind]
  | some t =>
    by_cases hp : t.paused = true
    · rw [pauseTask_of_paused s id n1 w1 t hfind hp]
      rw [pauseTask_of_paused s id n2 w2 t hfind hp]
    · have hp2 : t.paused = false := Bool.not_eq_true t.paused ▸ hp
      have hT : (PauseTask s id n1 w1).2.tasks = s.tasks.map
          (fun u => if u.ID == id then { u with paused := true, hasCancel := false } else u) :=
        pauseTask_tasks_of_not_paused s id n1 w1 t hfind hp2
      have hlook : mapLookup (PauseTask s id n1 w1).2.tasks id
          = some { t with paused := true, hasCancel := false } := by
        rw [hT, mapLookup_map_cond s.tasks id
          (fun u => { u with paused := true, hasCancel := false }) (fun u => rfl), hfind]
        rfl
      rw [pauseTask_of_paused (PauseTask s id n1 w1).2 id n2 w2 _ hlook rfl]

end GinSched

namespace GinSched

/-- C1: Add is all-or-nothing.  For any add request with a fresh id, if
the snapshot write fails, `AddTask` removes the freshly inserted task
again, so the whole scheduler state (in-memory registry and on-disk
snapshot) equals the state before the call, and an error is returned to
the caller; no task is ever left in the registry after a failed add. -/
theorem addTask_failed_write_is_all_or_nothing (s : SchedulerState) (req : AddTaskReq)
    (id : String) (now : Nat) (hfresh : id ∉ ids s.tasks) :
    (AddTask s req id now false).2 = s ∧
    ∃ e, (AddTask s req id now false).1 = Except.error e := by
  simp only [AddTask]
  split
  · split
    · exact ⟨rfl, _, rfl⟩
    · rw [if_neg Bool.false_ne_true]
      refine ⟨?_, _, rfl⟩
      show ({ s with tasks := mapDelete (mapInsert s.tasks _) id } : SchedulerState) = s
      rw [mapDelete_mapInsert_fresh hfresh]
  · exact ⟨rfl, _, rfl⟩

theorem addTask_failed_write_is_all_or_nothing_witness :
    (AddTask initialState
      { IntervalSeconds := 5, URL := "http://example.com/ping", Method := "get",
        Description := "d" } "a" 3 false).2 = initialState ∧
    ∃ e, (AddTask initialState
      { IntervalSeconds := 5, URL := "http://example.com/ping", Method := "get",
        Description := "d" } "a" 3 false).1 = Except.error e :=
  addTask_failed_write_is_all_or_nothing initialState
    { IntervalSeconds := 5, URL := "http://example.com/ping", Method := "get",
      Description := "d" } "a" 3 (by decide)

/-- C3 counterexample: the registry operation `AddTask` itself does not
validate the upper interval bound: a request with intervalSeconds 86401
is accepted (no validation error), the task enters the registry and its
execution loop starts, contradicting the claim that Add returns a
validation error for every interval outside [1,86400]. -/
theorem addTask_accepts_interval_above_upper_bound :
    (AddTask initialState
      { IntervalSeconds := 86401, URL := "http://example.com/ping", Method := "GET",
        Description := "d" } "a" 0 true).1 = Except.ok "a" ∧
    (AddTask initialState
      { IntervalSeconds := 86401, URL := "http://example.com/ping", Method := "GET",
        Description := "d" } "a" 0 true).2.tasks ≠ initialState.tasks := by
  constructor
  · decide
  · decide

/-- C3 amended: an interval below 1 is rejected by `AddTask` itself, and
any interval outside [1,86400] is rejected by the endpoint's JSON binding
layer before `AddTask` runs; in both cases an error is returned and the
scheduler state (registry, disk, loops) is completely unchanged.  The
upper bound 86400 is enforced only by the binding layer, not by the
registry operation. -/
theorem interval_validation_rejects_before_state_change (s : SchedulerState)
    (req : AddTaskReq) (id : String) (now : Nat) (wk : Bool)
    (hout : req.IntervalSeconds < 1 ∨ 86400 < req.IntervalSeconds) :
    ((addEndpoint s req id now wk).2 = s ∧
      ∃ e, (addEndpoint s req id now wk).1 = Except.error e) ∧
    (req.IntervalSeconds < 1 →
      (AddTask s req id now wk).2 = s ∧
      ∃ e, (AddTask s req id now wk).1 = Except.error e) := by
  constructor
  · have hbv : bindingValid req = false := by
      unfold bindingValid
      rcases hout with h | h
      · rw [decide_eq_false (Int.not_le.mpr h)]
        simp
      · rw [decide_eq_false (Int.not_le.mpr h)]
        simp
    unfold addEndpoint
    rw [if_neg (by simp [hbv])]
    exact ⟨rfl, _, rfl⟩
  · intro hlow
    simp only [AddTask]
    by_cases hm : normalizeMethod req.Method = "GET" ∨ normalizeMethod req.Method = "POST"
    · rw [if_pos hm, if_pos hlow]
      exact ⟨rfl, _, rfl⟩
    · rw [if_neg hm]
      exact ⟨rfl, _, rfl⟩

theorem interval_validation_rejects_before_state_change_witness :
    ((addEndpoint initialState
      { IntervalSeconds := 0, URL := "http://example.com/ping", Method := "GET",
        Description := "d" } "a" 0 true).2 = initialState ∧
      ∃ e, (addEndpoint initialState
        { IntervalSeconds := 0, URL := "http://example.com/ping", Method := "GET",
          Description := "d" } "a" 0 true).1 = Except.error e) ∧
    ((0 : Int) < 1 →
      (AddTask initialState
        { IntervalSeconds := 0, URL := "http://example.com/ping", Method := "GET",
          Description := "d" } "a" 0 true).2 = initialState ∧
      ∃ e, (AddTask initialState
        { IntervalSeconds := 0, URL := "http://example.com/ping", Method := "GET",
          Description := "d" } "a" 0 true).1 = Except.error e) :=
  interval_validation_rejects_before_state_change initialState
    { IntervalSeconds := 0, URL := "http://example.com/ping", Method := "GET",
      Description := "d" } "a" 0 true (Or.inl (by decide))

/-- C4: Pause is idempotent.  Pausing an already-paused task returns
success with the state (fields, handles, disk) completely unchanged, and
pausing twice always leaves exactly the state of pausing once. -/
theorem pause_is_idempotent :
    (∀ (s : SchedulerState) (id : String) (now : Nat) (wk : Bool) (t : Task),
      mapLookup s.tasks id = some t → t.paused = true →
      PauseTask s id now wk = (true, s)) ∧
    (∀ (s : SchedulerState) (id : String) (n1 : Nat) (w1 : Bool) (n2 : Nat) (w2 : Bool),
      (PauseTask (PauseTask s id n1 w1).2 id n2 w2).2 = (PauseTask s id n1 w1).2) :=
  ⟨fun s id now wk t h hp => pauseTask_of_paused s id now wk t h hp,
   fun s id n1 w1 n2 w2 => pauseTask_pause_pause s id n1 n2 w1 w2⟩

theorem pause_is_idempotent_witness :
    PauseTask sampleState "b" 4 true = (true, sampleState) :=
  pause_is_idempotent.1 sampleState "b" 4 true sampleTaskPaused (by decide) (by decide)

end GinSched

namespace GinSched

/-- C2 counterexample: an execution attempt that fails with an HTTP
transport error does NOT increase the task's run counter by one — the Go
code returns from `executeOnce` before `atomic.AddUint64`, so the counter
is unchanged, contradicting the claim that a transport failure is counted
as a completed attempt with the counter incremented. -/
theorem transport_error_does_not_increment_run_counter :
    (executeOnce sampleTaskRunning HTTPOutcome.transportError).1.runCount
      ≠ sampleTaskRunning.runCount + 1 := by
  decide

/-- C2 amended: a transport-error attempt is logged and leaves the task
completely unchanged — same run counter, same pause flag, the task is
neither removed nor retried (exactly one HTTP call occurs); on transport
success the run counter is incremented by one, and the increment event
happens after the response body is discarded and closed. -/
theorem execute_once_failure_and_success_behavior (t : Task) (code : Nat) :
    ((executeOnce t HTTPOutcome.transportError).1 = t ∧
     (executeOnce t HTTPOutcome.transportError).2
       = [ExecEvent.httpCall, ExecEvent.errorLogged] ∧
     (executeOnce t HTTPOutcome.transportError).2.count ExecEvent.httpCall = 1) ∧
    ((executeOnce t (HTTPOutcome.success code true)).1.runCount = t.runCount + 1 ∧
     (executeOnce t (HTTPOutcome.success code true)).1.paused = t.paused ∧
     (executeOnce t (HTTPOutcome.success code true)).1.ID = t.ID ∧
     (executeOnce t (HTTPOutcome.success code true)).2
       = [ExecEvent.httpCall, ExecEvent.bodyDiscarded, ExecEvent.bodyClosed,
          ExecEvent.counterIncremented, ExecEvent.successLogged]) :=
  ⟨⟨rfl, rfl, rfl⟩, ⟨rfl, rfl, rfl, rfl⟩⟩

/-- C5: restore is a per-entry filter: over a snapshot with distinct ids,
exactly the entries whose normalized method is GET or POST, whose interval
is at least 1 and whose URL is non-blank enter the registry (in order),
and deleting one invalid entry from anywhere in the file leaves the
restore result of the remaining entries unchanged — an invalid entry
never aborts the rest. -/
theorem restore_is_per_entry_filter :
    (∀ (pts : List PersistedTask) (now : Nat),
      (pts.map PersistedTask.ID).Nodup →
      restoreTasks [] pts now
        = (pts.filter validRestoreEntry).map (fun pt => restoredTask pt now)) ∧
    (∀ (acc : List Task) (xs ys : List PersistedTask) (bad : PersistedTask) (now : Nat),
      validRestoreEntry bad = false →
      restoreTasks acc (xs ++ bad :: ys) now = restoreTasks acc (xs ++ ys) now) :=
  ⟨fun pts now hnd =>
    restoreTasks_eq_filter_map pts [] now hnd (fun pt _ => by simp [ids]),
   fun acc xs ys bad now h => restoreTasks_skip acc xs ys bad now h⟩

theorem restore_is_per_entry_filter_witness :
    restoreTasks [] [sampleBadEntry, sampleGoodEntry] 9
      = ([sampleBadEntry, sampleGoodEntry].filter validRestoreEntry).map
          (fun pt => restoredTask pt 9) :=
  restore_is_per_entry_filter.1 [sampleBadEntry, sampleGoodEntry] 9 (by decide)

/-- C6: persist/restore round-trip: for every registry state reachable by
a sequence of (endpoint-validated) add, pause and remove operations from
the initial empty state, restoring from any reordering of the written
snapshot reproduces exactly the same multiset — hence set, since ids are
distinct — of (id, intervalSeconds, url, method, description, enabled)
tuples, independent of on-disk entry order. -/
theorem persist_restore_roundtrip (ops : List Op) (now now2 : Nat)
    (pts : List PersistedTask)
    (hperm : List.Perm pts (saveFile (applyOps initialState ops) now).Tasks) :
    List.Perm ((restoreTasks [] pts now2).map taskTuple)
      ((applyOps initialState ops).tasks.map taskTuple) :=
  roundtrip_of_goodState (applyOps initialState ops) now now2 pts
    (goodState_applyOps initialState ops goodState_initial) hperm

theorem persist_restore_roundtrip_witness :
    List.Perm
      ((restoreTasks []
        ((saveFile (applyOps initialState sampleOps) 7).Tasks).reverse 11).map taskTuple)
      ((applyOps initialState sampleOps).tasks.map taskTuple) :=
  persist_restore_roundtrip sampleOps 7 11
    ((saveFile (applyOps initialState sampleOps) 7).Tasks).reverse
    (List.reverse_perm (saveFile (applyOps initialState sampleOps) 7).Tasks)

/-- C7: removing a present id always returns found=true and deletes the
entry from the registry (its id no longer resolves); when the snapshot
write fails the deletion is NOT rolled back — the registry still lacks the
task, the on-disk snapshot is unchanged, and Remove still reports success;
when the write succeeds the snapshot of the shrunken registry is written. -/
theorem remove_present_deletes_even_if_write_fails (s : SchedulerState) (id : String)
    (now : Nat) (wk : Bool) (t : Task) (h : mapLookup s.tasks id = some t) :
    (RemoveTask s id now wk).1 = true ∧
    (RemoveTask s id now wk).2.tasks = mapDelete s.tasks id ∧
    mapLookup (RemoveTask s id now wk).2.tasks id = none ∧
    (RemoveTask s id now false).2.disk = s.disk ∧
    (RemoveTask s id now false).2.tasks = mapDelete s.tasks id ∧
    (RemoveTask s id now false).1 = true ∧
    (RemoveTask s id now true).2.disk = saveFile { s with tasks := mapDelete s.tasks id } now := by
  unfold RemoveTask
  rw [h]
  cases wk
  · exact ⟨rfl, rfl, mapLookup_mapDelete_self s.tasks id, rfl, rfl, rfl, rfl⟩
  · exact ⟨rfl, rfl, mapLookup_mapDelete_self s.tasks id, rfl, rfl, rfl, rfl⟩

theorem remove_present_deletes_even_if_write_fails_witness :
    (RemoveTask sampleState "a" 5 false).1 = true ∧
    (RemoveTask sampleState "a" 5 false).2.tasks = mapDelete sampleState.tasks "a" ∧
    (RemoveTask sampleState "a" 5 false).2.disk = sampleState.disk :=
  ⟨(remove_present_deletes_even_if_write_fails sampleState "a" 5 false sampleTaskRunning
      (by decide)).1,
   (remove_present_deletes_even_if_write_fails sampleState "a" 5 false sampleTaskRunning
      (by decide)).2.1,
   (remove_present_deletes_even_if_write_fails sampleState "a" 5 false sampleTaskRunning
      (by decide)).2.2.2.1⟩

end GinSched

namespace GinSched

/-- C8: registry invariant: a task's cancellation handle is present
exactly when the task is not paused.  The invariant holds in the initial
empty registry, is preserved by every add/pause/remove operation and by
the startup restore, and therefore holds in every state reachable by
operations after a fresh start or after a restore. -/
theorem cancel_handle_iff_not_paused :
    CancelInv initialState.tasks ∧
    (∀ (s : SchedulerState) (op : Op), CancelInv s.tasks → CancelInv (applyOp s op).tasks) ∧
    (∀ (acc : List Task) (pts : List PersistedTask) (now : Nat),
      CancelInv acc → CancelInv (restoreTasks acc pts now)) ∧
    (∀ ops : List Op, CancelInv (applyOps initialState ops).tasks) ∧
    (∀ (pts : List PersistedTask) (now : Nat) (ops : List Op),
      CancelInv (applyOps { initialState with tasks := restoreTasks [] pts now } ops).tasks) := by
  have hinit : CancelInv initialState.tasks := fun t ht => absurd ht (List.not_mem_nil t)
  refine ⟨hinit, cancelInv_applyOp, cancelInv_restoreTasks, ?_, ?_⟩
  · intro ops
    exact cancelInv_applyOps initialState ops hinit
  · intro pts now ops
    exact cancelInv_applyOps _ ops (cancelInv_restoreTasks [] pts now hinit)

theorem cancel_handle_iff_not_paused_witness :
    CancelInv (applyOp sampleState (Op.pause "a" 9 true)).tasks :=
  cancel_handle_iff_not_paused.2.1 sampleState (Op.pause "a" 9 true) (by decide)

/-- C9: every task ever present in the registry stores its method already
trimmed and uppercased, hence equal to exactly "GET" or "POST": the
invariant is preserved by every operation, established by restore, holds
in every reachable state, and consequently the Get and List views always
report the normalized method. -/
theorem method_always_normalized :
    (∀ (s : SchedulerState) (op : Op), MethodInv s.tasks → MethodInv (applyOp s op).tasks) ∧
    (∀ (acc : List Task) (pts : List PersistedTask) (now : Nat),
      MethodInv acc → MethodInv (restoreTasks acc pts now)) ∧
    (∀ ops : List Op, MethodInv (applyOps initialState ops).tasks) ∧
    (∀ (s : SchedulerState) (id : String) (v : TaskView), MethodInv s.tasks →
      getTask s id = some v → v.Method = "GET" ∨ v.Method = "POST") ∧
    (∀ (s : SchedulerState) (v : TaskView), MethodInv s.tasks →
      v ∈ listTasks s → v.Method = "GET" ∨ v.Method = "POST") := by
  have hinit : MethodInv initialState.tasks := fun t ht => absurd ht (List.not_mem_nil t)
  refine ⟨methodInv_applyOp, methodInv_restoreTasks, ?_, ?_, ?_⟩
  · intro ops
    exact methodInv_applyOps initialState ops hinit
  · intro s id v hinv hget
    unfold getTask at hget
    obtain ⟨t, hfind, hview⟩ := Option.map_eq_some'.mp hget
    rw [← hview]
    exact hinv t (List.mem_of_find?_eq_some hfind)
  · intro s v hinv hmem
    unfold listTasks at hmem
    obtain ⟨t, htmem, hview⟩ := List.mem_map.mp ((List.mem_insertionSort _).mp hmem)
    rw [← hview]
    exact hinv t htmem

theorem method_always_normalized_witness :
    (viewOf sampleTaskRunning).Method = "GET" ∨ (viewOf sampleTaskRunning).Method = "POST" :=
  method_always_normalized.2.2.2.1 sampleState "a" (viewOf sampleTaskRunning)
    (by decide) (by decide)

/-- C10: every snapshot write stamps the one current write time into the
updated_at field of every persisted record, so writing after a mutation
re-stamps even untouched tasks (two writes at different times always
differ); the other persisted fields of an untouched task — id, interval,
url, method, description, enabled = not paused, and created_at (its
startedAt, when non-zero) — are taken verbatim from the in-memory task. -/
theorem snapshot_stamps_updated_at_into_every_record (s : SchedulerState) (now : Nat) :
    (∀ pt ∈ (saveFile s now).Tasks, pt.UpdatedAt = now) ∧
    (∀ t ∈ s.tasks, t.startedAt ≠ 0 →
      persistOf t now ∈ (saveFile s now).Tasks ∧
      persistOf t now
        = { ID := t.ID, IntervalSeconds := t.IntervalSeconds, URL := t.URL,
            Method := t.Method, Description := t.Description, Enabled := !t.paused,
            CreatedAt := t.startedAt, UpdatedAt := now }) ∧
    (∀ (u : Task) (n1 n2 : Nat), n1 ≠ n2 → persistOf u n1 ≠ persistOf u n2) := by
  refine ⟨?_, ?_, ?_⟩
  · intro pt hpt
    obtain ⟨t, _, rfl⟩ := List.mem_map.mp ((List.mem_insertionSort _).mp hpt)
    rfl
  · intro t htmem hst
    constructor
    · exact (List.mem_insertionSort _).mpr (List.mem_map_of_mem (fun u => persistOf u now) htmem)
    · unfold persistOf
      rw [if_neg hst]
  · intro u n1 n2 hne heq
    exact hne (congrArg PersistedTask.UpdatedAt heq)

theorem snapshot_stamps_updated_at_into_every_record_witness :
    persistOf sampleTaskRunning 9 ∈ (saveFile sampleState 9).Tasks :=
  ((snapshot_stamps_updated_at_into_every_record sampleState 9).2.1 sampleTaskRunning
    (by decide) (by decide)).1

end GinSched
